import Mathlib

/-!
Verification of the AtomicLauncher account & token lifecycle manager
(`src-tauri/src/services/accounts.rs` and the `get_valid_token` call sites in
`src-tauri/src/commands/skins.rs`) against its natural-language specification.

Modelling conventions:
* Timestamps are RFC3339 strings produced by `chrono::Utc::now().to_rfc3339()`;
  the source compares them with `String::cmp` (lexicographic), modelled by the
  lexicographic linear order on `String`.
* `HashMap<String, StoredAccount>` is modelled as an association list whose
  entry order stands for the map's (arbitrary) iteration order; `insert`
  replaces in place or appends, `remove` erases the (unique, by invariant I2)
  entry, `keys().next()` is the head of the key list.
* The current time is passed explicitly to each operation that samples
  `Utc::now()` (the source samples it twice in immediate succession inside
  `add_account`; this is modelled as a single sampled timestamp).
* File I/O is modelled by an explicit file-system state and a trace of
  file-system operations; `std::fs::write` opens with create+truncate and then
  writes the content, modelled as a `truncate` step followed by a `writeAll`
  step so that a crash between the two is representable.
-/

namespace AtomicLauncher

/-- `crate::models::StoredAccount` (the struct is defined in `models.rs`,
missing from the provided sources; its fields are exactly those constructed in
`AccountManager::add_account` and read throughout `accounts.rs`). -/
structure StoredAccount where
  uuid : String
  username : String
  access_token : String
  added_at : String
  last_used : Option String
deriving DecidableEq, Repr

/-- `crate::models::AccountInfo`: the non-secret projection returned by
`get_all_accounts` (fields as constructed in `accounts.rs` lines 120–126). -/
structure AccountInfo where
  uuid : String
  username : String
  is_active : Bool
  added_at : String
  last_used : Option String
deriving DecidableEq, Repr

/-- `crate::models::AccountsData`: the persisted store. `accounts` models
`HashMap<String, StoredAccount>` as an association list; `active_account_uuid`
is the optional active pointer. -/
structure AccountsData where
  accounts : List (String × StoredAccount)
  active_account_uuid : Option String
deriving DecidableEq, Repr

/-- `AccountsData::default()`: empty map, no active account. -/
def AccountsData.defaultData : AccountsData := ⟨[], none⟩

/-- `HashMap::get` on the association-list model. -/
def mapGet (k : String) : List (String × StoredAccount) → Option StoredAccount
  | [] => none
  | (k', v) :: rest => if k' = k then some v else mapGet k rest

/-- `HashMap::insert`: replace the existing entry for `k` in place, or append
a new entry. -/
def mapInsert (k : String) (v : StoredAccount) :
    List (String × StoredAccount) → List (String × StoredAccount)
  | [] => [(k, v)]
  | (k', v') :: rest =>
      if k' = k then (k, v) :: rest else (k', v') :: mapInsert k v rest

/-- `HashMap::remove`: erase the entry for `k` (the first one; under the
no-duplicate-keys invariant I2 it is the only one). -/
def mapRemove (k : String) :
    List (String × StoredAccount) → List (String × StoredAccount)
  | [] => []
  | (k', v') :: rest => if k' = k then rest else (k', v') :: mapRemove k rest

/-- `HashMap::get_mut` followed by `account.last_used = Some(now)`
(`set_active_account`, lines 93–95). -/
def mapTouchLastUsed (k : String) (now : String) :
    List (String × StoredAccount) → List (String × StoredAccount)
  | [] => []
  | (k', v) :: rest =>
      if k' = k then (k', { v with last_used := some now }) :: rest
      else (k', v) :: mapTouchLastUsed k now rest

/-- The keys of the store map, in iteration order. -/
def mapKeys (m : List (String × StoredAccount)) : List String := m.map Prod.fst

/-- Error taxonomy surfaced by the facade operations (the source returns
boxed error strings; the only non-I/O error produced in `accounts.rs` is the
"Account with UUID {} not found" error of `set_active_account`). -/
inductive AccountError where
  | AccountNotFound (uuid : String)
deriving DecidableEq, Repr

/-- `AccountManager::add_account` (lines 36–61), at store-content level: the
load/save persistence round trip is treated separately by the codec model.
`now` is the sampled `Utc::now().to_rfc3339()` value. -/
def add_account (uuid username tok now : String) (d : AccountsData) :
    AccountsData :=
  let stored : StoredAccount :=
    { uuid := uuid, username := username, access_token := tok,
      added_at := now, last_used := some now }
  let accounts := mapInsert uuid stored d.accounts
  let active :=
    if d.active_account_uuid = none then some uuid else d.active_account_uuid
  ⟨accounts, active⟩

/-- `AccountManager::remove_account` (lines 64–81): remove the entry; if it
was the active account, switch to `accounts.keys().next()` (head of the key
list) or `None`. Always succeeds (`Ok(())`), even when `uuid` is absent. -/
def remove_account (uuid : String) (d : AccountsData) :
    Except AccountError AccountsData :=
  let accounts := mapRemove uuid d.accounts
  let active :=
    if d.active_account_uuid = some uuid then (mapKeys accounts).head?
    else d.active_account_uuid
  Except.ok ⟨accounts, active⟩

/-- `AccountManager::set_active_account` (lines 84–100): error if `uuid` is
absent, otherwise touch `last_used` and set the active pointer. The error
return happens before any save, so the store is unchanged on failure. -/
def set_active_account (uuid now : String) (d : AccountsData) :
    Except AccountError AccountsData :=
  if (mapGet uuid d.accounts).isSome then
    Except.ok ⟨mapTouchLastUsed uuid now d.accounts, some uuid⟩
  else
    Except.error (AccountError.AccountNotFound uuid)

/-- `AccountManager::get_active_account` (lines 103–111): `Ok` of the entry
at the active key, `Ok(None)` when there is no active pointer or the pointer
is dangling. -/
def get_active_account (d : AccountsData) :
    Except AccountError (Option StoredAccount) :=
  match d.active_account_uuid with
  | some uuid => Except.ok (mapGet uuid d.accounts)
  | none => Except.ok none

/-- One facade mutation, as dispatched by the application; used to state the
invariant-preservation claim over arbitrary operation sequences. A failed
`set_active_account` persists nothing, leaving the store unchanged. -/
inductive StoreOp where
  | add (uuid username tok now : String)
  | remove (uuid : String)
  | setActive (uuid now : String)
deriving DecidableEq, Repr

/-- Apply one facade mutation to the store content. -/
def applyStoreOp (d : AccountsData) : StoreOp → AccountsData
  | StoreOp.add u n t now => add_account u n t now d
  | StoreOp.remove u =>
      match remove_account u d with
      | Except.ok d' => d'
      | Except.error _ => d
  | StoreOp.setActive u now =>
      match set_active_account u now d with
      | Except.ok d' => d'
      | Except.error _ => d

/-- Invariant I1: a set active pointer references an existing entry. -/
def I1 (d : AccountsData) : Prop :=
  ∀ u, d.active_account_uuid = some u → (mapGet u d.accounts).isSome

/-- Invariant I2: no duplicate uuid keys. -/
def I2 (d : AccountsData) : Prop := (mapKeys d.accounts).Nodup

instance (d : AccountsData) : Decidable (I1 d) := by
  unfold I1
  infer_instance

instance (d : AccountsData) : Decidable (I2 d) := by
  unfold I2
  infer_instance

/-- The projection of one stored account to its non-secret summary
(`get_all_accounts`, lines 120–126): `is_active` is the comparison
`active_account_uuid.as_deref() == Some(&acc.uuid)`. -/
def toAccountInfo (active : Option String) (acc : StoredAccount) : AccountInfo :=
  { uuid := acc.uuid, username := acc.username,
    is_active := active == some acc.uuid,
    added_at := acc.added_at, last_used := acc.last_used }

/-- The comparator closure passed to `accounts.sort_by` (lines 130–137):
`match (&b.last_used, &a.last_used) { (Some(b_time), Some(a_time)) =>
b_time.cmp(a_time), (Some(_), None) => Less, (None, Some(_)) => Greater,
(None, None) => Equal }`. Rust's `String::cmp` (lexicographic) is expanded
into the lexicographic order on `String`. -/
def lastUsedCmp (a b : AccountInfo) : Ordering :=
  match b.last_used, a.last_used with
  | some bTime, some aTime =>
      if bTime < aTime then Ordering.lt
      else if bTime = aTime then Ordering.eq
      else Ordering.gt
  | some _, none => Ordering.lt
  | none, some _ => Ordering.gt
  | none, none => Ordering.eq

/-- The total preorder induced by the comparator: `a` may come before `b`
exactly when the comparator does not order `a` strictly after `b`. -/
def sortLe (a b : AccountInfo) : Prop := lastUsedCmp a b ≠ Ordering.gt

instance : DecidableRel sortLe := fun a b =>
  inferInstanceAs (Decidable (lastUsedCmp a b ≠ Ordering.gt))

/-- What the comparator's order means, spelled out on the `last_used` fields:
an entry with no `last_used` precedes everything; a timestamped entry never
precedes an untimestamped one; two timestamped entries are in descending
timestamp order. -/
def summaryBefore (a b : AccountInfo) : Prop :=
  match a.last_used, b.last_used with
  | none, _ => True
  | some _, none => False
  | some aTime, some bTime => bTime ≤ aTime

theorem sortLe_iff_summaryBefore (a b : AccountInfo) :
    sortLe a b ↔ summaryBefore a b := by
  obtain ⟨_, _, _, _, alu⟩ := a
  obtain ⟨_, _, _, _, blu⟩ := b
  unfold sortLe summaryBefore lastUsedCmp
  rcases alu with _ | aT <;> rcases blu with _ | bT
  · show Ordering.eq ≠ Ordering.gt ↔ True
    decide
  · show Ordering.lt ≠ Ordering.gt ↔ True
    decide
  · show Ordering.gt ≠ Ordering.gt ↔ False
    decide
  · show (if bT < aT then Ordering.lt
        else if bT = aT then Ordering.eq else Ordering.gt) ≠ Ordering.gt
        ↔ bT ≤ aT
    split_ifs with hlt heq
    · exact iff_of_true (by decide) (le_of_lt hlt)
    · exact iff_of_true (by decide) (le_of_eq heq)
    · exact iff_of_false (by simp)
        (fun h => (lt_or_eq_of_le h).elim hlt heq)

instance : IsTotal AccountInfo sortLe where
  total a b := by
    rw [sortLe_iff_summaryBefore a b, sortLe_iff_summaryBefore b a]
    obtain ⟨_, _, _, _, alu⟩ := a
    obtain ⟨_, _, _, _, blu⟩ := b
    unfold summaryBefore
    rcases alu with _ | aT <;> rcases blu with _ | bT
    · exact Or.inl trivial
    · exact Or.inl trivial
    · exact Or.inr trivial
    · exact le_total bT aT

instance : IsTrans AccountInfo sortLe where
  trans a b c hab hbc := by
    rw [sortLe_iff_summaryBefore] at hab hbc ⊢
    obtain ⟨_, _, _, _, alu⟩ := a
    obtain ⟨_, _, _, _, blu⟩ := b
    obtain ⟨_, _, _, _, clu⟩ := c
    unfold summaryBefore at hab hbc ⊢
    rcases alu with _ | aT
    · trivial
    · rcases blu with _ | bT
      · exact False.elim hab
      · rcases clu with _ | cT
        · exact False.elim hbc
        · exact le_trans hbc hab

/-- `AccountManager::get_all_accounts` (lines 114–140): project each stored
account to its summary, then sort with the comparator above. Rust's
`sort_by` is a stable sort; any two stable sorts with the same comparator
produce the same output, so it is modelled by stable insertion sort. -/
def get_all_accounts (d : AccountsData) : List AccountInfo :=
  List.insertionSort sortLe
    (d.accounts.map fun p => toAccountInfo d.active_account_uuid p.2)

/-- JSON value AST, covering the shapes the persisted store uses: strings,
`null` for absent optional fields, and objects (§6: a single JSON document
`\x7b accounts, active_account_uuid \x7d`). -/
inductive Json where
  | null
  | str (s : String)
  | obj (fields : List (String × Json))

/-- Serialization of an optional string: `None` becomes `null`. -/
def encodeOptString : Option String → Json
  | none => Json.null
  | some s => Json.str s

/-- serde serialization of one `StoredAccount`. -/
def encodeAccount (a : StoredAccount) : Json :=
  Json.obj [("uuid", Json.str a.uuid),
    ("username", Json.str a.username),
    ("access_token", Json.str a.access_token),
    ("added_at", Json.str a.added_at),
    ("last_used", encodeOptString a.last_used)]

/-- serde serialization of the whole store (`serde_json::to_string_pretty`,
at the JSON-value level; the concrete text rendering is not modelled). -/
def encodeAccountsData (d : AccountsData) : Json :=
  Json.obj
    [("accounts", Json.obj (d.accounts.map fun p => (p.1, encodeAccount p.2))),
     ("active_account_uuid", encodeOptString d.active_account_uuid)]

/-- Look up a field of a JSON object by name (first occurrence). -/
def jsonField (k : String) : List (String × Json) → Option Json
  | [] => none
  | (k', v) :: rest => if k' = k then some v else jsonField k rest

/-- Deserialize a JSON string. -/
def decodeString : Json → Option String
  | Json.str s => some s
  | _ => none

/-- serde deserialization of an `Option<String>` field: missing or `null`
yields `None`; a non-string, non-null value is a parse error. -/
def decodeOptStringField (k : String) (fields : List (String × Json)) :
    Option (Option String) :=
  match jsonField k fields with
  | none => some none
  | some Json.null => some none
  | some (Json.str s) => some (some s)
  | some (Json.obj _) => none

/-- serde deserialization of one `StoredAccount` (unknown fields ignored,
as serde does by default). -/
def decodeAccount : Json → Option StoredAccount
  | Json.obj fields => do
      let uuid ← jsonField "uuid" fields >>= decodeString
      let username ← jsonField "username" fields >>= decodeString
      let tok ← jsonField "access_token" fields >>= decodeString
      let added ← jsonField "added_at" fields >>= decodeString
      let lu ← decodeOptStringField "last_used" fields
      some ⟨uuid, username, tok, added, lu⟩
  | _ => none

/-- Deserialize the `accounts` object into the uuid-keyed map. -/
def decodeAccountMap :
    List (String × Json) → Option (List (String × StoredAccount))
  | [] => some []
  | (k, j) :: rest => do
      let a ← decodeAccount j
      let r ← decodeAccountMap rest
      some ((k, a) :: r)

/-- serde deserialization of the whole store (`serde_json::from_str`, at the
JSON-value level). -/
def decodeAccountsData : Json → Option AccountsData
  | Json.obj fields => do
      let accountsJson ← jsonField "accounts" fields
      let pairs ←
        match accountsJson with
        | Json.obj entries => decodeAccountMap entries
        | _ => none
      let active ← decodeOptStringField "active_account_uuid" fields
      some ⟨pairs, active⟩
  | _ => none

/-- The content of one file path: absent, torn (a partially written file
that is not parseable JSON — `std::fs::write` truncates before writing, so a
crash between the truncate and the completed write leaves such a file), or a
whole serialized JSON document. -/
inductive FileState where
  | absent
  | torn
  | wholeJson (j : Json)

/-- A file-system state: content by path. -/
def Fs : Type := String → FileState

/-- One file-system operation. `rename` is included because the claimed
write discipline (temporary file, then rename over the canonical path) would
be expressed with it; `AccountManager::save` never emits it. -/
inductive FsOp where
  | truncate (path : String)
  | writeAll (path : String) (content : Json)
  | rename (fromPath toPath : String)

/-- Apply one operation to the file system. -/
def applyFsOp (fs : Fs) : FsOp → Fs
  | FsOp.truncate p => fun q => if q = p then FileState.torn else fs q
  | FsOp.writeAll p j => fun q => if q = p then FileState.wholeJson j else fs q
  | FsOp.rename src dst =>
      fun q =>
        if q = dst then fs src
        else if q = src then FileState.absent
        else fs q

/-- Apply a trace of operations in order; a crash after `k` steps leaves the
state `runFsOps fs (ops.take k)`. -/
def runFsOps (fs : Fs) (ops : List FsOp) : Fs := ops.foldl applyFsOp fs

/-- Canonical store path, `get_launcher_dir().join("accounts.json")` (the
launcher directory is a fixed prefix, elided). -/
def accountsFilePath : String := "accounts.json"

/-- File-system trace of `AccountManager::save` (lines 28–33): serialize,
then a single `fs::write` to the canonical path — no temporary file and no
rename. `fs::write` opens with create+truncate and then writes the full
content, hence the two steps. -/
def saveOps (d : AccountsData) : List FsOp :=
  [FsOp.truncate accountsFilePath,
   FsOp.writeAll accountsFilePath (encodeAccountsData d)]

/-- Load errors: a present-but-unparsable file (§7 `CorruptStore`; the
source surfaces the serde parse error). -/
inductive LoadError where
  | CorruptStore
deriving DecidableEq, Repr

/-- `AccountManager::load` (lines 14–25) against a file-system state: a
missing file yields the default store; unparsable content (including a torn
file) is a parse error. -/
def loadFs (fs : Fs) : Except LoadError AccountsData :=
  match fs accountsFilePath with
  | FileState.absent => Except.ok AccountsData.defaultData
  | FileState.torn => Except.error LoadError.CorruptStore
  | FileState.wholeJson j =>
      match decodeAccountsData j with
      | some d => Except.ok d
      | none => Except.error LoadError.CorruptStore

/-- Modelled from the spec: the Account record of §3 with the credential
fields (`refresh_token`, `expires_at`) needed by the Token Freshness
Evaluator. `get_valid_token` is called from `commands/skins.rs` but its
definition (and `models.rs`) is not among the provided sources. -/
structure SpecAccount where
  uuid : String
  access_token : String
  refresh_token : Option String
  expires_at : Int
deriving DecidableEq, Repr

/-- Token freshness classification (§4.3). -/
inductive TokenClass where
  | Fresh
  | Refreshable
  | Dead
deriving DecidableEq, Repr

/-- Modelled from the spec: §4.3 `classify(Account, now)`: `Fresh` when
`now < expires_at - skew`; `Refreshable` when expired-or-near-expiry with a
refresh token present; `Dead` otherwise. -/
def classify (a : SpecAccount) (now skew : Int) : TokenClass :=
  if now < a.expires_at - skew then TokenClass.Fresh
  else if a.refresh_token.isSome then TokenClass.Refreshable
  else TokenClass.Dead

/-- Token-path errors (§4.4, §7). -/
inductive TokenError where
  | ReauthenticationRequired
  | NetworkFailure
  | InvalidRefreshToken
  | MalformedResponse
deriving DecidableEq, Repr

/-- Modelled from the spec: §4.5 `get_valid_token(uuid)` — classify, and if
`Refreshable` invoke the Refresh Coordinator, if `Fresh` return the cached
token without I/O, if `Dead` fail with `ReauthenticationRequired`. The
coordinator's outcome is a parameter (its network exchange is external); the
second component counts the network refresh exchanges performed. -/
def get_valid_token (a : SpecAccount) (now skew : Int)
    (refreshOutcome : Except TokenError String) :
    Except TokenError String × Nat :=
  match classify a now skew with
  | TokenClass.Fresh => (Except.ok a.access_token, 0)
  | TokenClass.Refreshable => (refreshOutcome, 1)
  | TokenClass.Dead => (Except.error TokenError.ReauthenticationRequired, 0)


/-! ### Association-map lemmas -/

theorem mapKeys_nil : mapKeys [] = [] := rfl

theorem mapKeys_cons (k : String) (v : StoredAccount)
    (m : List (String × StoredAccount)) :
    mapKeys ((k, v) :: m) = k :: mapKeys m := rfl

theorem mapGet_mapInsert_self (k : String) (v : StoredAccount)
    (m : List (String × StoredAccount)) :
    mapGet k (mapInsert k v m) = some v := by
  induction m with
  | nil =>
    simp [mapInsert, mapGet]
  | cons p rest ih =>
    obtain ⟨k', v'⟩ := p
    by_cases h : k' = k
    · subst h
      simp [mapInsert, mapGet]
    · simp only [mapInsert, if_neg h, mapGet, if_neg h]
      exact ih

theorem mapGet_mapInsert_ne (k q : String) (v : StoredAccount)
    (m : List (String × StoredAccount)) (hne : q ≠ k) :
    mapGet q (mapInsert k v m) = mapGet q m := by
  induction m with
  | nil =>
    simp only [mapInsert, mapGet, if_neg (Ne.symm hne)]
  | cons p rest ih =>
    obtain ⟨k', v'⟩ := p
    by_cases h : k' = k
    · have hk'q : ¬k' = q := fun he => hne (he.symm.trans h)
      simp only [mapInsert, if_pos h, mapGet, if_neg (Ne.symm hne),
        if_neg hk'q]
    · by_cases hq : k' = q
      · simp only [mapInsert, if_neg h, mapGet, if_pos hq]
      · simp only [mapInsert, if_neg h, mapGet, if_neg hq]
        exact ih

theorem mem_mapKeys_mapInsert (x k : String) (v : StoredAccount)
    (m : List (String × StoredAccount)) :
    x ∈ mapKeys (mapInsert k v m) ↔ x ∈ mapKeys m ∨ x = k := by
  induction m with
  | nil =>
    simp only [mapInsert, mapKeys_cons, mapKeys_nil, List.mem_cons,
      List.not_mem_nil, false_or]
    tauto
  | cons p rest ih =>
    obtain ⟨k', v'⟩ := p
    by_cases h : k' = k
    · subst h
      simp only [mapInsert, mapKeys_cons, List.mem_cons, if_true,
        eq_self_iff_true]
      tauto
    · simp only [mapInsert, if_neg h, mapKeys_cons, List.mem_cons, ih]
      tauto

theorem nodup_mapKeys_mapInsert (k : String) (v : StoredAccount)
    (m : List (String × StoredAccount)) (h : (mapKeys m).Nodup) :
    (mapKeys (mapInsert k v m)).Nodup := by
  induction m with
  | nil =>
    simp [mapInsert, mapKeys_cons, mapKeys_nil]
  | cons p rest ih =>
    obtain ⟨k', v'⟩ := p
    rw [mapKeys_cons, List.nodup_cons] at h
    by_cases hk : k' = k
    · subst hk
      rw [mapInsert, if_pos rfl, mapKeys_cons, List.nodup_cons]
      exact h
    · rw [mapInsert, if_neg hk, mapKeys_cons, List.nodup_cons]
      refine ⟨fun hmem => ?_, ih h.2⟩
      rcases (mem_mapKeys_mapInsert k' k v rest).mp hmem with hin | heq
      · exact h.1 hin
      · exact hk heq

theorem mapGet_eq_none_of_not_mem (k : String)
    (m : List (String × StoredAccount)) (h : k ∉ mapKeys m) :
    mapGet k m = none := by
  induction m with
  | nil => rfl
  | cons p rest ih =>
    obtain ⟨k', v'⟩ := p
    rw [mapKeys_cons, List.mem_cons] at h
    push_neg at h
    rw [mapGet, if_neg (fun he => h.1 he.symm)]
    exact ih h.2

theorem mem_mapKeys_iff_isSome (k : String)
    (m : List (String × StoredAccount)) :
    k ∈ mapKeys m ↔ (mapGet k m).isSome := by
  induction m with
  | nil =>
    simp [mapKeys_nil, mapGet]
  | cons p rest ih =>
    obtain ⟨k', v'⟩ := p
    by_cases h : k' = k
    · subst h
      simp [mapKeys_cons, mapGet, if_pos rfl]
    · rw [mapKeys_cons, List.mem_cons, mapGet, if_neg h, ← ih]
      have hne : ¬k = k' := fun he => h he.symm
      tauto

theorem mapGet_mapRemove_ne (k q : String)
    (m : List (String × StoredAccount)) (hne : q ≠ k) :
    mapGet q (mapRemove k m) = mapGet q m := by
  induction m with
  | nil => rfl
  | cons p rest ih =>
    obtain ⟨k', v'⟩ := p
    by_cases h : k' = k
    · have hk'q : ¬k' = q := fun he => hne (he.symm.trans h)
      rw [mapRemove, if_pos h, mapGet, if_neg hk'q]
    · by_cases hq : k' = q
      · rw [mapRemove, if_neg h, mapGet, if_pos hq, mapGet, if_pos hq]
      · rw [mapRemove, if_neg h, mapGet, if_neg hq, mapGet, if_neg hq]
        exact ih

theorem mapGet_mapRemove_self (k : String)
    (m : List (String × StoredAccount)) (h : (mapKeys m).Nodup) :
    mapGet k (mapRemove k m) = none := by
  induction m with
  | nil => rfl
  | cons p rest ih =>
    obtain ⟨k', v'⟩ := p
    rw [mapKeys_cons, List.nodup_cons] at h
    by_cases hk : k' = k
    · subst hk
      rw [mapRemove, if_pos rfl]
      exact mapGet_eq_none_of_not_mem k' rest h.1
    · rw [mapRemove, if_neg hk, mapGet, if_neg hk]
      exact ih h.2

theorem mem_mapKeys_mapRemove (x k : String)
    (m : List (String × StoredAccount))
    (h : x ∈ mapKeys (mapRemove k m)) : x ∈ mapKeys m := by
  induction m with
  | nil => exact absurd h (List.not_mem_nil x)
  | cons p rest ih =>
    obtain ⟨k', v'⟩ := p
    by_cases hk : k' = k
    · rw [mapRemove, if_pos hk] at h
      rw [mapKeys_cons, List.mem_cons]
      exact Or.inr h
    · rw [mapRemove, if_neg hk, mapKeys_cons, List.mem_cons] at h
      rw [mapKeys_cons, List.mem_cons]
      rcases h with heq | hin
      · exact Or.inl heq
      · exact Or.inr (ih hin)

theorem nodup_mapKeys_mapRemove (k : String)
    (m : List (String × StoredAccount)) (h : (mapKeys m).Nodup) :
    (mapKeys (mapRemove k m)).Nodup := by
  induction m with
  | nil => exact h
  | cons p rest ih =>
    obtain ⟨k', v'⟩ := p
    rw [mapKeys_cons, List.nodup_cons] at h
    by_cases hk : k' = k
    · rw [mapRemove, if_pos hk]
      exact h.2
    · rw [mapRemove, if_neg hk, mapKeys_cons, List.nodup_cons]
      exact ⟨fun hin => h.1 (mem_mapKeys_mapRemove k' k rest hin), ih h.2⟩

theorem mapKeys_mapTouchLastUsed (k now : String)
    (m : List (String × StoredAccount)) :
    mapKeys (mapTouchLastUsed k now m) = mapKeys m := by
  induction m with
  | nil => rfl
  | cons p rest ih =>
    obtain ⟨k', v'⟩ := p
    by_cases h : k' = k
    · rw [mapTouchLastUsed, if_pos h, mapKeys_cons, mapKeys_cons]
    · rw [mapTouchLastUsed, if_neg h, mapKeys_cons, mapKeys_cons, ih]

theorem mapGet_mapTouchLastUsed_self (k now : String)
    (m : List (String × StoredAccount)) :
    mapGet k (mapTouchLastUsed k now m) =
      (mapGet k m).map fun v => { v with last_used := some now } := by
  induction m with
  | nil => rfl
  | cons p rest ih =>
    obtain ⟨k', v'⟩ := p
    by_cases h : k' = k
    · subst h
      simp [mapTouchLastUsed, mapGet]
    · rw [mapTouchLastUsed, if_neg h, mapGet, if_neg h, mapGet, if_neg h]
      exact ih

theorem mapKeys_head?_mem (m : List (String × StoredAccount)) (k : String)
    (h : (mapKeys m).head? = some k) : k ∈ mapKeys m := by
  cases m with
  | nil => exact Option.noConfusion h
  | cons p rest =>
    obtain ⟨k', v'⟩ := p
    rw [mapKeys_cons, List.head?_cons, Option.some.injEq] at h
    rw [mapKeys_cons, h]
    exact List.mem_cons_self k _

/-! ### Unfolding lemmas for the facade operations -/

theorem add_account_accounts (u n t now : String) (d : AccountsData) :
    (add_account u n t now d).accounts =
      mapInsert u ⟨u, n, t, now, some now⟩ d.accounts := rfl

theorem add_account_active (u n t now : String) (d : AccountsData) :
    (add_account u n t now d).active_account_uuid =
      if d.active_account_uuid = none then some u
      else d.active_account_uuid := rfl

theorem remove_account_eq (u : String) (d : AccountsData) :
    remove_account u d =
      Except.ok
        ⟨mapRemove u d.accounts,
         if d.active_account_uuid = some u then
           (mapKeys (mapRemove u d.accounts)).head?
         else d.active_account_uuid⟩ := rfl

theorem set_active_account_pos (u now : String) (d : AccountsData)
    (hc : (mapGet u d.accounts).isSome) :
    set_active_account u now d =
      Except.ok ⟨mapTouchLastUsed u now d.accounts, some u⟩ := by
  rw [set_active_account, if_pos hc]

theorem set_active_account_neg (u now : String) (d : AccountsData)
    (hc : ¬(mapGet u d.accounts).isSome) :
    set_active_account u now d =
      Except.error (AccountError.AccountNotFound u) := by
  rw [set_active_account, if_neg hc]

/-! ### Invariant preservation -/

theorem inv_add_account (u n t now : String) (d : AccountsData)
    (h1 : I1 d) (h2 : I2 d) :
    I1 (add_account u n t now d) ∧ I2 (add_account u n t now d) := by
  constructor
  · intro x hx
    rw [add_account_active] at hx
    rw [add_account_accounts]
    by_cases hact : d.active_account_uuid = none
    · rw [if_pos hact, Option.some.injEq] at hx
      subst hx
      rw [mapGet_mapInsert_self]
      rfl
    · rw [if_neg hact] at hx
      by_cases hxu : x = u
      · subst hxu
        rw [mapGet_mapInsert_self]
        rfl
      · rw [mapGet_mapInsert_ne u x _ d.accounts hxu]
        exact h1 x hx
  · unfold I2
    rw [add_account_accounts]
    exact nodup_mapKeys_mapInsert u _ d.accounts h2

theorem inv_remove_account (u : String) (d : AccountsData)
    (h1 : I1 d) (h2 : I2 d) (d' : AccountsData)
    (hok : remove_account u d = Except.ok d') :
    I1 d' ∧ I2 d' := by
  rw [remove_account_eq, Except.ok.injEq] at hok
  subst hok
  constructor
  · intro x hx
    simp only at hx ⊢
    by_cases hact : d.active_account_uuid = some u
    · rw [if_pos hact] at hx
      have hmem := mapKeys_head?_mem _ x hx
      exact (mem_mapKeys_iff_isSome x _).mp hmem
    · rw [if_neg hact] at hx
      have hxu : x ≠ u := fun he => hact (he ▸ hx)
      rw [mapGet_mapRemove_ne u x d.accounts hxu]
      exact h1 x hx
  · unfold I2
    exact nodup_mapKeys_mapRemove u d.accounts h2

theorem inv_set_active_account (u now : String) (d : AccountsData)
    (h1 : I1 d) (h2 : I2 d) (d' : AccountsData)
    (hok : set_active_account u now d = Except.ok d') :
    I1 d' ∧ I2 d' := by
  by_cases hc : (mapGet u d.accounts).isSome
  · rw [set_active_account_pos u now d hc, Except.ok.injEq] at hok
    subst hok
    constructor
    · intro x hx
      simp only [Option.some.injEq] at hx
      subst hx
      rw [mapGet_mapTouchLastUsed_self]
      rcases Option.isSome_iff_exists.mp hc with ⟨v, hv⟩
      simp [hv]
    · unfold I2
      rw [mapKeys_mapTouchLastUsed]
      exact h2
  · rw [set_active_account_neg u now d hc] at hok
    exact Except.noConfusion hok

theorem inv_applyStoreOp (d : AccountsData) (op : StoreOp)
    (h1 : I1 d) (h2 : I2 d) :
    I1 (applyStoreOp d op) ∧ I2 (applyStoreOp d op) := by
  cases op with
  | add u n t now => exact inv_add_account u n t now d h1 h2
  | remove u =>
    have h := inv_remove_account u d h1 h2 _ (remove_account_eq u d)
    simpa only [applyStoreOp, remove_account_eq u d] using h
  | setActive u now =>
    by_cases hc : (mapGet u d.accounts).isSome
    · have heq := set_active_account_pos u now d hc
      have h := inv_set_active_account u now d h1 h2 _ heq
      simpa only [applyStoreOp, heq] using h
    · have heq := set_active_account_neg u now d hc
      simpa only [applyStoreOp, heq] using And.intro h1 h2

theorem inv_foldl (l : List StoreOp) (d : AccountsData)
    (h1 : I1 d) (h2 : I2 d) :
    I1 (List.foldl applyStoreOp d l) ∧ I2 (List.foldl applyStoreOp d l) := by
  induction l generalizing d with
  | nil => exact ⟨h1, h2⟩
  | cons op rest ih =>
    rw [List.foldl_cons]
    have hstep := inv_applyStoreOp d op h1 h2
    exact ih (applyStoreOp d op) hstep.1 hstep.2

/-! ### Codec round trip -/

theorem decodeAccount_encodeAccount (a : StoredAccount) :
    decodeAccount (encodeAccount a) = some a := by
  obtain ⟨u, n, t, ad, lu⟩ := a
  rcases lu with _ | s <;> rfl

theorem decodeAccountMap_encode (m : List (String × StoredAccount)) :
    decodeAccountMap (m.map fun p => (p.1, encodeAccount p.2)) = some m := by
  induction m with
  | nil => rfl
  | cons p rest ih =>
    obtain ⟨k, a⟩ := p
    rw [List.map_cons]
    simp only [decodeAccountMap, decodeAccount_encodeAccount, ih,
      Option.bind_eq_bind, Option.some_bind]

theorem jsonField_accounts (x y : Json) :
    jsonField "accounts"
      [("accounts", x), ("active_account_uuid", y)] = some x := rfl

theorem jsonField_active (x y : Json) :
    jsonField "active_account_uuid"
      [("accounts", x), ("active_account_uuid", y)] = some y := by rfl

theorem decode_encode (d : AccountsData) :
    decodeAccountsData (encodeAccountsData d) = some d := by
  obtain ⟨m, act⟩ := d
  rcases act with _ | u <;>
    simp [decodeAccountsData, encodeAccountsData, jsonField_accounts,
      jsonField_active, decodeOptStringField, decodeAccountMap_encode,
      encodeOptString]

/-! ### Stability of the summary sort -/

theorem summaryBefore_of_eq_last_used (x y : AccountInfo)
    (h : x.last_used = y.last_used) : summaryBefore x y := by
  unfold summaryBefore
  obtain ⟨_, _, _, _, xlu⟩ := x
  obtain ⟨_, _, _, _, ylu⟩ := y
  simp only at h
  subst h
  rcases xlu with _ | s
  · trivial
  · exact le_refl s

theorem filter_orderedInsert_pos (p : AccountInfo → Bool) (x : AccountInfo)
    (hx : p x = true) (hkey : ∀ y, p y = true → sortLe x y)
    (l : List AccountInfo) :
    (List.orderedInsert sortLe x l).filter p = x :: l.filter p := by
  induction l with
  | nil =>
    rw [List.orderedInsert_nil, List.filter_cons_of_pos hx]
  | cons b rest ih =>
    by_cases hb : sortLe x b
    · rw [List.orderedInsert, if_pos hb, List.filter_cons_of_pos hx]
    · have hpb : ¬p b = true := fun hpb => hb (hkey b hpb)
      rw [List.orderedInsert, if_neg hb, List.filter_cons_of_neg hpb, ih,
        List.filter_cons_of_neg hpb]

theorem filter_orderedInsert_neg (p : AccountInfo → Bool) (x : AccountInfo)
    (hx : ¬p x = true) (l : List AccountInfo) :
    (List.orderedInsert sortLe x l).filter p = l.filter p := by
  induction l with
  | nil =>
    rw [List.orderedInsert_nil, List.filter_cons_of_neg hx]
  | cons b rest ih =>
    by_cases hb : sortLe x b
    · rw [List.orderedInsert, if_pos hb, List.filter_cons_of_neg hx]
    · by_cases hpb : p b = true
      · rw [List.orderedInsert, if_neg hb, List.filter_cons_of_pos hpb,
          List.filter_cons_of_pos hpb, ih]
      · rw [List.orderedInsert, if_neg hb, List.filter_cons_of_neg hpb,
          List.filter_cons_of_neg hpb, ih]

theorem filter_insertionSort (p : AccountInfo → Bool)
    (hp : ∀ x y, p x = true → p y = true → sortLe x y)
    (l : List AccountInfo) :
    (List.insertionSort sortLe l).filter p = l.filter p := by
  induction l with
  | nil => rfl
  | cons x rest ih =>
    rw [List.insertionSort]
    by_cases hx : p x = true
    · rw [filter_orderedInsert_pos p x hx (fun y hy => hp x y hx hy), ih,
        List.filter_cons_of_pos hx]
    · rw [filter_orderedInsert_neg p x hx, ih,
        List.filter_cons_of_neg hx]

/-! ### Claim C1 -/

/-- Demonstration store for C1: one never-used account and one timestamped
account. -/
def c1Store : AccountsData :=
  ⟨[("u1", ⟨"u1", "Alice", "tokA", "2024-01-02T00:00:00+00:00", none⟩),
    ("u2", ⟨"u2", "Bob", "tokB", "2024-01-01T00:00:00+00:00",
      some "2024-01-03T00:00:00+00:00"⟩)], some "u2"⟩

/-- C1 (counterexample): `get_all_accounts` on `c1Store` returns the
summary with `last_used = none` FIRST, before the timestamped summary — the
claim requires every account whose `last_used` is absent to come after all
accounts that have a timestamp. The comparator returns `Less` for an
untimestamped `a` against a timestamped `b`, so untimestamped accounts sort
to the front. -/
theorem C1_counterexample :
    get_all_accounts c1Store =
      [⟨"u1", "Alice", false, "2024-01-02T00:00:00+00:00", none⟩,
       ⟨"u2", "Bob", true, "2024-01-01T00:00:00+00:00",
         some "2024-01-03T00:00:00+00:00"⟩] := by
  rfl

/-- C1 (amended): `get_all_accounts` returns exactly the non-secret
summaries of the stored accounts (a permutation of the projections via
`toAccountInfo`), ordered by `last_used` descending among timestamped
accounts, with every account whose `last_used` is absent placed BEFORE all
accounts that have a `last_used` timestamp, and ties broken stably (the
summaries with any fixed `last_used` value keep their store order). -/
theorem C1_get_all_accounts_amended (d : AccountsData) :
    (get_all_accounts d).Perm
        (d.accounts.map fun p => toAccountInfo d.active_account_uuid p.2) ∧
    (get_all_accounts d).Pairwise summaryBefore ∧
    ∀ t : Option String,
      (get_all_accounts d).filter (fun i => i.last_used == t) =
        (d.accounts.map fun p =>
            toAccountInfo d.active_account_uuid p.2).filter
          (fun i => i.last_used == t) := by
  refine ⟨List.perm_insertionSort sortLe _, ?_, ?_⟩
  · exact List.Pairwise.imp (fun h => (sortLe_iff_summaryBefore _ _).mp h)
      (List.sorted_insertionSort sortLe _)
  · intro t
    exact filter_insertionSort (fun i => i.last_used == t)
      (fun x y hx hy => by
        rw [sortLe_iff_summaryBefore]
        exact summaryBefore_of_eq_last_used x y (by
          have hx' : x.last_used = t := by simpa using hx
          have hy' : y.last_used = t := by simpa using hy
          rw [hx', hy'])) _

/-! ### Claim C2 -/

/-- Demonstration for C2: the store already on disk before the crashing
save. -/
def c2PriorStore : AccountsData :=
  ⟨[("u1", ⟨"u1", "Alice", "tokA", "T1", some "T1"⟩)], some "u1"⟩

/-- File system holding a completed save of `c2PriorStore`. -/
def c2PriorFs : Fs := runFsOps (fun _ => FileState.absent) (saveOps c2PriorStore)

/-- The store being saved when the crash happens. -/
def c2NewStore : AccountsData := add_account "u2" "Bob" "tokB" "T2" c2PriorStore

/-- C2 (counterexample): `save` performs no write to a temporary path and no
rename — its whole trace is a truncate of the canonical path followed by a
write to the canonical path. The prior canonical file was parseable, yet a
crash after the first step of the new save (the truncate that `fs::write`
performs) leaves the canonical file unparsable: the next `load` reports a
corrupt store instead of the prior store. -/
theorem C2_counterexample :
    saveOps c2NewStore =
      [FsOp.truncate accountsFilePath,
       FsOp.writeAll accountsFilePath (encodeAccountsData c2NewStore)] ∧
    loadFs c2PriorFs = Except.ok c2PriorStore ∧
    loadFs (runFsOps c2PriorFs (List.take 1 (saveOps c2NewStore))) =
      Except.error LoadError.CorruptStore := by
  exact ⟨rfl, rfl, rfl⟩

/-- C2 (amended): `save` writes the serialized store directly to the
canonical path — `fs::write`, i.e. a truncate followed by the full write —
with no temporary file and no rename; a crash between the truncate and the
completed write leaves the canonical file unparsable (`CorruptStore` on the
next load), so the prior canonical content is NOT preserved; only an
uninterrupted save leaves the canonical file parseable as the saved
store. -/
theorem C2_save_not_atomic_amended (d : AccountsData) (fs : Fs) :
    saveOps d =
      [FsOp.truncate accountsFilePath,
       FsOp.writeAll accountsFilePath (encodeAccountsData d)] ∧
    loadFs (runFsOps fs (List.take 1 (saveOps d))) =
      Except.error LoadError.CorruptStore ∧
    loadFs (runFsOps fs (saveOps d)) = Except.ok d := by
  refine ⟨rfl, ?_, ?_⟩
  · have h : runFsOps fs (List.take 1 (saveOps d)) accountsFilePath =
        FileState.torn := by
      simp [saveOps, runFsOps, applyFsOp]
    unfold loadFs
    rw [h]
  · have h : runFsOps fs (saveOps d) accountsFilePath =
        FileState.wholeJson (encodeAccountsData d) := by
      simp [saveOps, runFsOps, applyFsOp]
    unfold loadFs
    rw [h]
    simp [decode_encode d]

/-! ### Claim C3 -/

/-- C3: starting from any store satisfying I1 and I2, the store after each
step of any sequence of facade mutations (`add_account`, `remove_account`,
`set_active_account`) still satisfies I1 (a set active pointer references
an existing key) and I2 (no duplicate keys): every prefix of the sequence
yields an invariant-satisfying store. -/
theorem C3_invariant_preservation (ops : List StoreOp) (d : AccountsData)
    (h1 : I1 d) (h2 : I2 d) (k : Nat) :
    I1 (List.foldl applyStoreOp d (List.take k ops)) ∧
    I2 (List.foldl applyStoreOp d (List.take k ops)) :=
  inv_foldl (List.take k ops) d h1 h2

/-- Witness for C3 at a concrete sequence from the spec's scenario. -/
theorem C3_invariant_preservation_witness :
    I1 (List.foldl applyStoreOp AccountsData.defaultData
        (List.take 3
          [StoreOp.add "u1" "Alice" "tokA" "T1",
           StoreOp.add "u2" "Bob" "tokB" "T2",
           StoreOp.remove "u1"])) ∧
    I2 (List.foldl applyStoreOp AccountsData.defaultData
        (List.take 3
          [StoreOp.add "u1" "Alice" "tokA" "T1",
           StoreOp.add "u2" "Bob" "tokB" "T2",
           StoreOp.remove "u1"])) :=
  C3_invariant_preservation _ AccountsData.defaultData
    (fun _ h => Option.noConfusion h) List.nodup_nil 3

/-! ### Claim C4 -/

/-- The store produced by `remove_account` (its payload; the call always
returns `Ok`). -/
def remove_account_result (u : String) (d : AccountsData) : AccountsData :=
  ⟨mapRemove u d.accounts,
   if d.active_account_uuid = some u then
     (mapKeys (mapRemove u d.accounts)).head?
   else d.active_account_uuid⟩

/-- C4: `remove_account` always returns success (also when `uuid` is absent)
and deletes the entry for `uuid` while leaving all other entries unchanged;
if the removed uuid was the active account and accounts remain, the active
pointer is reassigned to an existing remaining key; if it was the sole
account, the pointer becomes none. (The I2 hypothesis is the map-semantics
no-duplicate-keys invariant.) -/
theorem C4_remove_account (d : AccountsData) (u : String) (h2 : I2 d) :
    remove_account u d = Except.ok (remove_account_result u d) ∧
    mapGet u (remove_account_result u d).accounts = none ∧
    (∀ q, q ≠ u →
      mapGet q (remove_account_result u d).accounts = mapGet q d.accounts) ∧
    (d.active_account_uuid = some u →
      (remove_account_result u d).accounts ≠ [] →
      ∃ k', (remove_account_result u d).active_account_uuid = some k' ∧
        (mapGet k' (remove_account_result u d).accounts).isSome) ∧
    (d.active_account_uuid = some u →
      (remove_account_result u d).accounts = [] →
      (remove_account_result u d).active_account_uuid = none) := by
  refine ⟨rfl, ?_, ?_, ?_, ?_⟩
  · exact mapGet_mapRemove_self u d.accounts h2
  · intro q hq
    exact mapGet_mapRemove_ne u q d.accounts hq
  · intro hact hne
    show ∃ k', (if d.active_account_uuid = some u then
        (mapKeys (mapRemove u d.accounts)).head?
      else d.active_account_uuid) = some k' ∧
      (mapGet k' (mapRemove u d.accounts)).isSome
    rw [if_pos hact]
    have hne' : mapRemove u d.accounts ≠ [] := hne
    cases hl : mapRemove u d.accounts with
    | nil => exact absurd hl hne'
    | cons p rest =>
      refine ⟨p.1, rfl, ?_⟩
      apply (mem_mapKeys_iff_isSome p.1 _).mp
      exact List.mem_cons_self p.1 (mapKeys rest)
  · intro hact hemp
    show (if d.active_account_uuid = some u then
        (mapKeys (mapRemove u d.accounts)).head?
      else d.active_account_uuid) = none
    rw [if_pos hact]
    have hemp' : mapRemove u d.accounts = [] := hemp
    rw [hemp']
    rfl

/-- Demonstration store for C4: two accounts, `u1` active. -/
def c4Store : AccountsData :=
  ⟨[("u1", ⟨"u1", "Alice", "tokA", "T1", some "T1"⟩),
    ("u2", ⟨"u2", "Bob", "tokB", "T2", some "T2"⟩)], some "u1"⟩

/-- Witness for C4: removing the active account from `c4Store`. -/
theorem C4_remove_account_witness :
    remove_account "u1" c4Store =
      Except.ok (remove_account_result "u1" c4Store) ∧
    mapGet "u1" (remove_account_result "u1" c4Store).accounts = none :=
  ⟨(C4_remove_account c4Store "u1" (by decide)).1,
   (C4_remove_account c4Store "u1" (by decide)).2.1⟩

/-! ### Claim C5 -/

/-- C5: `add_account` inserts (or overwrites, when the key already exists)
the entry for `uuid`, leaves every other entry unchanged, and makes the new
uuid active exactly when the store previously had no active account — an
existing active pointer is left unchanged (first-added rule). -/
theorem C5_add_account (d : AccountsData) (u n t now : String) :
    mapGet u (add_account u n t now d).accounts =
      some ⟨u, n, t, now, some now⟩ ∧
    (∀ q, q ≠ u →
      mapGet q (add_account u n t now d).accounts = mapGet q d.accounts) ∧
    (add_account u n t now d).active_account_uuid =
      (if d.active_account_uuid = none then some u
       else d.active_account_uuid) ∧
    (d.active_account_uuid = none →
      (add_account u n t now d).active_account_uuid = some u) ∧
    (∀ a, d.active_account_uuid = some a →
      (add_account u n t now d).active_account_uuid = some a) := by
  refine ⟨?_, ?_, rfl, ?_, ?_⟩
  · rw [add_account_accounts]
    exact mapGet_mapInsert_self u _ d.accounts
  · intro q hq
    rw [add_account_accounts]
    exact mapGet_mapInsert_ne u q _ d.accounts hq
  · intro hact
    rw [add_account_active, if_pos hact]
  · intro a hact
    rw [add_account_active, if_neg (by rw [hact]; exact Option.noConfusion),
      hact]

/-- Demonstration store for C5: one account, `u1` active. -/
def c5Store : AccountsData :=
  ⟨[("u1", ⟨"u1", "Alice", "tokA", "T1", some "T1"⟩)], some "u1"⟩

/-- Witness for C5: adding a second account leaves `u1` active. -/
theorem C5_add_account_witness :
    mapGet "u2" (add_account "u2" "Bob" "tokB" "T2" c5Store).accounts =
      some ⟨"u2", "Bob", "tokB", "T2", some "T2"⟩ ∧
    (add_account "u2" "Bob" "tokB" "T2" c5Store).active_account_uuid =
      some "u1" :=
  ⟨(C5_add_account c5Store "u2" "Bob" "tokB" "T2").1,
   (C5_add_account c5Store "u2" "Bob" "tokB" "T2").2.2.2.2 "u1" rfl⟩

/-! ### Claim C6 -/

/-- C6: `set_active_account u` fails with `AccountNotFound` exactly when `u`
is absent from the store, and on that failure the store is unchanged; when
`u` is present it sets that account's `last_used` to the sampled call-time
timestamp (hence a timestamp ≥ the call time) and sets the active pointer
to `u`, so that an immediately following `get_active_account` returns the
account stored at key `u` with the updated `last_used`. -/
theorem C6_set_active_account (d : AccountsData) (u now : String) :
    ((∃ e, set_active_account u now d = Except.error e) ↔
      mapGet u d.accounts = none) ∧
    (mapGet u d.accounts = none →
      set_active_account u now d =
        Except.error (AccountError.AccountNotFound u) ∧
      applyStoreOp d (StoreOp.setActive u now) = d) ∧
    (∀ a, mapGet u d.accounts = some a →
      set_active_account u now d =
        Except.ok ⟨mapTouchLastUsed u now d.accounts, some u⟩ ∧
      get_active_account ⟨mapTouchLastUsed u now d.accounts, some u⟩ =
        Except.ok (some { a with last_used := some now })) := by
  refine ⟨⟨?_, ?_⟩, ?_, ?_⟩
  · rintro ⟨e, he⟩
    by_cases hc : (mapGet u d.accounts).isSome
    · rw [set_active_account_pos u now d hc] at he
      exact Except.noConfusion he
    · exact Option.not_isSome_iff_eq_none.mp hc
  · intro habs
    refine ⟨AccountError.AccountNotFound u, ?_⟩
    apply set_active_account_neg
    rw [habs]
    simp
  · intro habs
    have hc : ¬(mapGet u d.accounts).isSome = true := by
      rw [habs]
      simp
    refine ⟨set_active_account_neg u now d hc, ?_⟩
    show (match set_active_account u now d with
      | Except.ok d' => d'
      | Except.error _ => d) = d
    rw [set_active_account_neg u now d hc]
  · intro a ha
    have hc : (mapGet u d.accounts).isSome := by
      rw [ha]
      rfl
    refine ⟨set_active_account_pos u now d hc, ?_⟩
    show Except.ok (mapGet u (mapTouchLastUsed u now d.accounts)) =
      Except.ok (some { a with last_used := some now })
    rw [mapGet_mapTouchLastUsed_self, ha]
    rfl

/-- Demonstration store for C6. -/
def c6Store : AccountsData :=
  ⟨[("u1", ⟨"u1", "Alice", "tokA", "T1", some "T1"⟩)], none⟩

/-- Witness for C6: activating `u1` at time `T9` then reading it back. -/
theorem C6_set_active_account_witness :
    set_active_account "u1" "T9" c6Store =
      Except.ok ⟨mapTouchLastUsed "u1" "T9" c6Store.accounts, some "u1"⟩ ∧
    get_active_account ⟨mapTouchLastUsed "u1" "T9" c6Store.accounts,
        some "u1"⟩ =
      Except.ok (some ⟨"u1", "Alice", "tokA", "T1", some "T9"⟩) :=
  (C6_set_active_account c6Store "u1" "T9").2.2
    ⟨"u1", "Alice", "tokA", "T1", some "T1"⟩ rfl

/-! ### Claim C7 -/

/-- C7: for any store satisfying I1 and I2 and any prior file-system state,
a completed `save` followed by `load` returns a store equal in content
(same accounts map, same active pointer) to the original. -/
theorem C7_save_load_roundtrip (d : AccountsData) (fs : Fs)
    (h1 : I1 d) (h2 : I2 d) :
    loadFs (runFsOps fs (saveOps d)) = Except.ok d := by
  have h : runFsOps fs (saveOps d) accountsFilePath =
      FileState.wholeJson (encodeAccountsData d) := by
    simp [saveOps, runFsOps, applyFsOp]
  unfold loadFs
  rw [h]
  simp [decode_encode d]

/-- Demonstration store for C7. -/
def c7Store : AccountsData :=
  ⟨[("u1", ⟨"u1", "Alice", "tokA", "T1", some "T1"⟩)], some "u1"⟩

/-- Witness for C7: round trip of `c7Store` over an empty file system. -/
theorem C7_save_load_roundtrip_witness :
    loadFs (runFsOps (fun _ => FileState.absent) (saveOps c7Store)) =
      Except.ok c7Store :=
  C7_save_load_roundtrip c7Store (fun _ => FileState.absent)
    (by
      intro u h
      injection h with h'
      subst h'
      rfl)
    (by decide)

/-! ### Claim C8 -/

/-- C8 (spec-modelled): `get_valid_token` classifies the credential and:
when Fresh (`now < expires_at - skew`) returns the cached access token with
no network refresh exchange; when Refreshable invokes the Refresh
Coordinator (one exchange) and returns its outcome; when Dead fails with
`ReauthenticationRequired` and performs no exchange. -/
theorem C8_get_valid_token (a : SpecAccount) (now skew : Int)
    (r : Except TokenError String) :
    (now < a.expires_at - skew →
      get_valid_token a now skew r = (Except.ok a.access_token, 0)) ∧
    (¬now < a.expires_at - skew → a.refresh_token.isSome →
      get_valid_token a now skew r = (r, 1)) ∧
    (¬now < a.expires_at - skew → a.refresh_token = none →
      get_valid_token a now skew r =
        (Except.error TokenError.ReauthenticationRequired, 0)) := by
  refine ⟨fun h => ?_, fun h hr => ?_, fun h hr => ?_⟩
  · unfold get_valid_token classify
    rw [if_pos h]
  · unfold get_valid_token classify
    rw [if_neg h, if_pos hr]
  · unfold get_valid_token classify
    rw [if_neg h, hr]
    rfl

/-- Witness for C8: the spec's scenario — `get_valid_token("u2")` well
before expiry returns the cached token with zero network exchanges. -/
theorem C8_get_valid_token_witness :
    get_valid_token ⟨"u2", "tokB", some "refB", 3600⟩ 0 60
        (Except.ok "freshTok") = (Except.ok "tokB", 0) :=
  (C8_get_valid_token ⟨"u2", "tokB", some "refB", 3600⟩ 0 60
    (Except.ok "freshTok")).1 (by decide)

/-! ### Claim C10 -/

/-- C10: on a store whose active pointer references a uuid absent from the
accounts map (an I1-violating store, e.g. from an externally edited file),
`get_active_account` returns success with no account (`Ok(None)`), not an
error. -/
theorem C10_get_active_dangling (d : AccountsData) (u : String)
    (hact : d.active_account_uuid = some u)
    (habs : mapGet u d.accounts = none) :
    get_active_account d = Except.ok none := by
  unfold get_active_account
  rw [hact]
  show Except.ok (mapGet u d.accounts) = Except.ok none
  rw [habs]

/-- Witness for C10: a store whose active pointer dangles. -/
theorem C10_get_active_dangling_witness :
    get_active_account ⟨[], some "ghost"⟩ = Except.ok none :=
  C10_get_active_dangling ⟨[], some "ghost"⟩ "ghost" rfl rfl

end AtomicLauncher
